import Mathlib

/-!
Verification of the PII span pipeline: character tagging (`dataset.py`),
token-label alignment (`dataset.py`), batch collation (`dataset.py`),
BIO span decoding and span validation (`predict.py`).

Machine integers are modelled as `Int`/`Nat`; Python lists as `List`;
Python dicts keyed by label strings as list lookups.
-/

/-- Modelled from the spec: the label vocabulary of `labels.py` (not under
`src/`) — a static bijection between label strings (`O`, `B-<TYPE>`,
`I-<TYPE>`) and integer ids.  The entity types are the ones produced by the
repository's data generators: PHONE, EMAIL, CREDIT_CARD, PERSON_NAME, DATE,
CITY, LOCATION. -/
def LABELS : List String :=
  ["O",
   "B-PHONE", "I-PHONE",
   "B-EMAIL", "I-EMAIL",
   "B-CREDIT_CARD", "I-CREDIT_CARD",
   "B-PERSON_NAME", "I-PERSON_NAME",
   "B-DATE", "I-DATE",
   "B-CITY", "I-CITY",
   "B-LOCATION", "I-LOCATION"]

/-- `dataset.py` line 10: `self.label2id = {l: i for i, l in enumerate(label_list)}`,
used at line 60 as `self.label2id.get(tag_str, self.label2id["O"])`.
The fallback to `O`'s id for unknown tags is baked in here. -/
def label2id (l : String) : Int :=
  match LABELS.indexOf? l with
  | some i => (i : Int)
  | none => ((LABELS.indexOf "O" : Nat) : Int)

/-- Modelled from the spec: `ID2LABEL` of `labels.py` (not under `src/`), the
inverse id→string mapping, used in `predict.py` line 51 as
`ID2LABEL.get(int(lid), "O")` — out-of-range ids fall back to `"O"`. -/
def ID2LABEL (i : Int) : String :=
  if h : 0 ≤ i ∧ i.toNat < LABELS.length then LABELS.get ⟨i.toNat, h.2⟩ else "O"

/-- `predict.py` line 59: `prefix, ent_type = label.split("-", 1)` followed by
the tests `prefix == "B"` / `prefix == "I"`.  The part before the first dash
equals `"B"` exactly when the string starts with the two characters `B-`,
and then `ent_type` is everything after that first dash; likewise for `I`.
Other shapes never arise from `ID2LABEL` and take no transition. -/
def labelKind (label : String) : Option (Bool × String) :=
  match label.data with
  | 'B' :: '-' :: rest => some (true, String.mk rest)
  | 'I' :: '-' :: rest => some (false, String.mk rest)
  | _ => none

/-- The loop body state of `bio_to_spans` (`predict.py` lines 43–77):
`current_label`, `current_start`, `current_end` are `none` when idle, and
the tail of the loop plus the final flush at lines 76–77 are the base case. -/
def bioGo : List ((Nat × Nat) × Int) → Option (String × Nat × Nat) →
    List (Nat × Nat × String)
  | [], none => []
  | [], some (lab, cs, ce) => [(cs, ce, lab)]
  | ((st, en), lid) :: rest, cur =>
    if st = 0 ∧ en = 0 then
      -- line 49: `if start == 0 and end == 0: continue`
      bioGo rest cur
    else
      -- line 51: `label = ID2LABEL.get(int(lid), "O")`
      if ID2LABEL lid = "O" then
        match cur with
        | some (lab, cs, ce) => (cs, ce, lab) :: bioGo rest none
        | none => bioGo rest none
      else
        match labelKind (ID2LABEL lid) with
        | some (true, ent) =>
          match cur with
          | some (lab, cs, ce) => (cs, ce, lab) :: bioGo rest (some (ent, st, en))
          | none => bioGo rest (some (ent, st, en))
        | some (false, ent) =>
          match cur with
          | some (lab, cs, ce) =>
            if lab = ent then bioGo rest (some (lab, cs, en))
            else (cs, ce, lab) :: bioGo rest (some (ent, st, en))
          | none => bioGo rest (some (ent, st, en))
        | none => bioGo rest cur

/-- `predict.py` lines 42–79 (`bio_to_spans`).  The `text` argument is unused
by the Python function as well; `zip(offsets, label_ids)` is the iteration
at line 48. -/
def bio_to_spans (text : String) (offsets : List (Nat × Nat))
    (label_ids : List Int) : List (Nat × Nat × String) :=
  let _ := text
  bioGo (offsets.zip label_ids) none

/-- Scan for `needle` as a contiguous run inside a character list. -/
def isInfixOfChars (needle : List Char) : List Char → Bool
  | [] => needle.isEmpty
  | c :: t => needle.isPrefixOf (c :: t) || isInfixOfChars needle t

/-- Substring containment, the semantics of Python's `needle in hay` and of
`re.search` with a literal-word alternative. -/
def containsStr (hay needle : String) : Bool :=
  isInfixOfChars needle.data hay.data

/-- A digit character somewhere in the string: Python `re.search(r'\d', text)`. -/
def containsDigit (s : String) : Bool :=
  s.data.any Char.isDigit

/-- The spelled-out digit words of the validator regexes
(`predict.py` lines 19 and 31). -/
def digitWords : List String :=
  ["one", "two", "three", "four", "five", "six", "seven", "eight", "nine", "zero"]

/-- Python `str.lower`, applied character by character
(`predict.py` line 15: `text = text.lower()`). -/
def strLower (s : String) : String :=
  String.mk (s.data.map Char.toLower)

/-- `predict.py` lines 10–40 (`validate_span`).  `re.search(r'\d|one|…|plus', t)`
succeeds exactly when `t` contains a digit character or one of the listed
words as a substring anywhere. -/
def validate_span (text : String) (label : String) : Bool :=
  let t := strLower text
  if label = "PHONE" then
    containsDigit t || digitWords.any (fun w => containsStr t w) || containsStr t "plus"
  else if label = "EMAIL" then
    containsStr t " at " || containsStr t "@" || containsStr t " dot "
  else if label = "CREDIT_CARD" then
    containsDigit t || digitWords.any (fun w => containsStr t w)
  else if label = "DATE" then
    true
  else
    true

/-- Python slice `text[s:e]` for `0 ≤ s ≤ e` (the only case the pipeline
produces, since decoded spans carry `Nat` offsets with `s ≤ e`). -/
def sliceStr (text : String) (s e : Nat) : String :=
  String.mk ((text.data.drop s).take (e - s))

/-- `predict.py` lines 132–136: the filtering loop of `main` keeps exactly the
decoded spans whose substring passes `validate_span`. -/
def filterSpans (text : String) (spans : List (Nat × Nat × String)) :
    List (Nat × Nat × String) :=
  spans.filter (fun sp => validate_span (sliceStr text sp.1 sp.2.1) sp.2.2)

/-- `dataset.py` lines 31–32: `for i in range(s + 1, e_idx): char_tags[i] = f"I-{lab}"`,
phrased as: write `v` into `m` consecutive cells starting at index `i`. -/
def fillRange (v : String) : List String → Nat → Nat → List String
  | t, _, 0 => t
  | t, i, m + 1 => fillRange v (t.set i v) (i + 1) m

/-- `dataset.py` lines 25–32: one iteration of the entity loop.  An entity is
`(start, end, label)` with Python ints for the offsets (they may be negative).
Line 28 is the validity guard; lines 30–32 write the `B-`/`I-` tags. -/
def applyEntity (tags : List String) (ent : Int × Int × String) : List String :=
  if ent.1 < 0 ∨ (tags.length : Int) < ent.2.1 ∨ ent.2.1 ≤ ent.1 then tags
  else
    let s := ent.1.toNat
    let e := ent.2.1.toNat
    fillRange ("I-" ++ ent.2.2) (tags.set s ("B-" ++ ent.2.2)) (s + 1) (e - (s + 1))

/-- `dataset.py` lines 24–32 (the CharTagger): `char_tags = ["O"] * len(text)`
then the entity loop, applied in list order. -/
def charTags (textLen : Nat) (entities : List (Int × Int × String)) : List String :=
  entities.foldl applyEntity (List.replicate textLen "O")

/-- `dataset.py` lines 50–62: the label assigned to one token, where a token is
`((start, end), input_id)` and `specials` is the list
`[tokenizer.cls_token_id, tokenizer.sep_token_id, tokenizer.pad_token_id]`. -/
def alignTok (char_tags : List String) (specials : List Int)
    (t : (Nat × Nat) × Int) : Int :=
  if t.1.1 = t.1.2 ∨ t.2 ∈ specials then -100
  else if t.1.1 < char_tags.length then label2id (char_tags.getD t.1.1 "O")
  else label2id "O"

/-- `dataset.py` lines 49–62 (the TokenLabelAligner): the `bio_tags` loop over
`enumerate(offsets)`, reading `input_ids[idx]` — i.e. a map over the paired
offset/id stream. -/
def alignLabels (char_tags : List String) (toks : List ((Nat × Nat) × Int))
    (specials : List Int) : List Int :=
  toks.map (alignTok char_tags specials)

/-- One element of a `PIIDataset` batch (`dataset.py` lines 64–73). -/
structure Item where
  idStr : String
  text : String
  input_ids : List Int
  attention_mask : List Int
  labels : List Int
  offset_mapping : List (Nat × Nat)

/-- The dictionary returned by `collate_batch` (`dataset.py` lines 102–109). -/
structure CollatedBatch where
  input_ids : List (List Int)
  attention_mask : List (List Int)
  labels : List (List Int)
  ids : List String
  texts : List String
  offset_mapping : List (List (Nat × Nat))

/-- `dataset.py` lines 95–96: `pad(seq, pad_value, max_len)`. -/
def padSeq (seq : List Int) (pad_value : Int) (max_len : Nat) : List Int :=
  seq ++ List.replicate (max_len - seq.length) pad_value

/-- `dataset.py` lines 83–110 (`collate_batch`).  Python's
`max(len(ids) for ids in input_ids_list)` raises on an empty batch; it is
modelled as a fold with base `0`, which agrees with it on every non-empty
batch (the only case the theorems quantify over). -/
def collate_batch (batch : List Item) (pad_token_id : Int)
    (label_pad_id : Int := -100) : CollatedBatch :=
  let max_len := (batch.map (fun x => x.input_ids.length)).foldl Nat.max 0
  { input_ids := batch.map (fun x => padSeq x.input_ids pad_token_id max_len)
    attention_mask := batch.map (fun x => padSeq x.attention_mask 0 max_len)
    labels := batch.map (fun x => padSeq x.labels label_pad_id max_len)
    ids := batch.map (fun x => x.idStr)
    texts := batch.map (fun x => x.text)
    offset_mapping := batch.map (fun x => x.offset_mapping) }

/-- One line of a JSONL input file as `json.loads` sees it: blank after
`strip()`, non-blank but not valid JSON (`json.loads` raises
`JSONDecodeError`), or a well-formed record.  `json.loads` itself is the
Python standard library, external to the repository; only its
raise-on-malformed behaviour is modelled. -/
inductive InLine (α : Type) where
  | blank : InLine α
  | malformed : InLine α
  | record : α → InLine α

/-- `dataset.py` lines 14–19: the line loop of `PIIDataset.__init__` — a blank
line (falsy after `strip()`) is skipped by the `continue`; a malformed line
reaches `json.loads`, whose exception propagates and aborts construction. -/
def datasetRecords {α : Type} : List (InLine α) → Except Unit (List α)
  | [] => Except.ok []
  | InLine.blank :: rest => datasetRecords rest
  | InLine.malformed :: _ => Except.error ()
  | InLine.record r :: rest => (datasetRecords rest).map (fun l => r :: l)

/-- `predict.py` lines 107–111: the line loop of `main` calls `json.loads` on
every raw line with no blank-line guard; `json.loads` raises both on a blank
and on a malformed line, aborting the run. -/
def predictRecords {α : Type} : List (InLine α) → Except Unit (List α)
  | [] => Except.ok []
  | InLine.blank :: _ => Except.error ()
  | InLine.malformed :: _ => Except.error ()
  | InLine.record r :: rest => (predictRecords rest).map (fun l => r :: l)

/-! ### Helper lemmas about label strings and the decoder -/

lemma data_B_append (T : String) : ("B-" ++ T).data = 'B' :: '-' :: T.data := by
  rw [String.data_append]; rfl

lemma data_I_append (T : String) : ("I-" ++ T).data = 'I' :: '-' :: T.data := by
  rw [String.data_append]; rfl

lemma labelKind_B (T : String) : labelKind ("B-" ++ T) = some (true, T) := by
  simp [labelKind, data_B_append]

lemma labelKind_I (T : String) : labelKind ("I-" ++ T) = some (false, T) := by
  simp [labelKind, data_I_append]

lemma B_append_ne_O (T : String) : ("B-" ++ T) ≠ "O" := by
  intro h
  have h2 : ("B-" ++ T).data = "O".data := congrArg String.data h
  rw [data_B_append] at h2
  simp at h2

lemma I_append_ne_O (T : String) : ("I-" ++ T) ≠ "O" := by
  intro h
  have h2 : ("I-" ++ T).data = "O".data := congrArg String.data h
  rw [data_I_append] at h2
  simp at h2

/-- C5 counterexample: the decoder skips only the exact offset `(0, 0)`
(`predict.py` line 49), not every zero-width offset.  A token with zero-width
offset `(2, 2)` and predicted label `B-PHONE` opens — and the final flush
emits — the span `(2, 2, PHONE)`, so it does contribute a span, contradicting
the claim that any `(k, k)` token is skipped. -/
theorem C5_counterexample :
    bio_to_spans "x" [(2, 2)] [label2id "B-PHONE"] = [(2, 2, "PHONE")] ∧
    bio_to_spans "x" [(2, 2)] [label2id "B-PHONE"] ≠ [] := by
  refine ⟨rfl, ?_⟩
  intro h
  exact absurd (rfl.trans h) (by decide)

/-- C5 (amended): a token whose offset is exactly `(0, 0)` is skipped by the
decoder in every state — it never opens a span, never extends one, and never
causes one to be emitted — regardless of its predicted label; in particular
a leading `(0, 0)` token drops out of `bio_to_spans`. -/
theorem C5_amended (lid : Int) (rest : List ((Nat × Nat) × Int))
    (cur : Option (String × Nat × Nat)) (text : String)
    (offs : List (Nat × Nat)) (lids : List Int) :
    bioGo (((0, 0), lid) :: rest) cur = bioGo rest cur ∧
    bio_to_spans text ((0, 0) :: offs) (lid :: lids) = bio_to_spans text offs lids := by
  constructor
  · simp [bioGo]
  · simp [bio_to_spans, List.zip, bioGo]

/-- C4: BIO leniency.  An `I-T` label seen while idle, or while a span of a
different type is open, takes exactly the transition a `B-T` label would take
(`predict.py` lines 66–74): the open span, if any, is emitted and a fresh
span `(T, start, end)` is opened.  And the predicted sequence
`[(0,3) I-PHONE, (4,6) I-PHONE]` decodes to the single span `(0, 6, PHONE)`. -/
theorem C4_leniency (T : String) (lidI lidB : Int)
    (hI : ID2LABEL lidI = "I-" ++ T) (hB : ID2LABEL lidB = "B-" ++ T)
    (st en : Nat) (rest : List ((Nat × Nat) × Int))
    (cur : Option (String × Nat × Nat))
    (hcur : cur = none ∨ ∃ T' cs ce, cur = some (T', cs, ce) ∧ T' ≠ T) :
    bioGo (((st, en), lidI) :: rest) cur = bioGo (((st, en), lidB) :: rest) cur ∧
    bio_to_spans "" [(0, 3), (4, 6)] [label2id "I-PHONE", label2id "I-PHONE"] =
      [(0, 6, "PHONE")] := by
  refine ⟨?_, rfl⟩
  rcases hcur with hcur | ⟨T', cs, ce, hcur, hne⟩ <;> subst hcur
  · simp [bioGo, hI, hB, I_append_ne_O, B_append_ne_O, labelKind_I, labelKind_B]
  · simp [bioGo, hI, hB, I_append_ne_O, B_append_ne_O, labelKind_I, labelKind_B, hne]

/-- C4 witness: the leniency transition at a concrete input — an `I-PHONE`
label (id 2) from the idle state takes the same step as `B-PHONE` (id 1). -/
theorem C4_leniency_witness :
    bioGo [((0, 3), 2)] none = bioGo [((0, 3), 1)] none := by
  have h := C4_leniency "PHONE" 2 1 (by decide) (by decide) 0 3 [] none (Or.inl rfl)
  exact h.1

/-- The acceptance rule exactly as the spec's §4.5 table states it, for
comparison with `validate_span`: PHONE — a digit, a spelled-out digit word,
or `plus`; CREDIT_CARD — a digit or a spelled-out digit word; EMAIL — `@`,
` at `, or ` dot `; DATE and every other label — always accepted; all
matching case-insensitive on the span's substring. -/
def specAccepts (sub : String) (label : String) : Bool :=
  let t := strLower sub
  if label = "PHONE" then
    containsDigit t || digitWords.any (fun w => containsStr t w) || containsStr t "plus"
  else if label = "CREDIT_CARD" then
    containsDigit t || digitWords.any (fun w => containsStr t w)
  else if label = "EMAIL" then
    containsStr t "@" || containsStr t " at " || containsStr t " dot "
  else
    true

lemma validate_eq_specAccepts (s lab : String) :
    validate_span s lab = specAccepts s lab := by
  by_cases h1 : lab = "PHONE"
  · subst h1; rfl
  · by_cases h2 : lab = "EMAIL"
    · subst h2
      simp [validate_span, specAccepts, Bool.or_comm, Bool.or_left_comm]
    · by_cases h3 : lab = "CREDIT_CARD"
      · subst h3; rfl
      · simp [validate_span, specAccepts, h1, h2, h3]

/-- C7: the SpanValidator is strictly a filter — the output of the filtering
loop in `main` is the in-order subsequence of exactly those decoded spans
whose substring passes the per-label rule of the spec's table (`specAccepts`);
no span is created or relabeled.  Concretely, `"four two four two"` as
CREDIT_CARD is accepted and `"john smith"` as PHONE is rejected. -/
theorem C7_validator_filter (text : String) (spans : List (Nat × Nat × String)) :
    filterSpans text spans =
      spans.filter (fun sp => specAccepts (sliceStr text sp.1 sp.2.1) sp.2.2) ∧
    (filterSpans text spans).Sublist spans ∧
    validate_span "four two four two" "CREDIT_CARD" = true ∧
    validate_span "john smith" "PHONE" = false := by
  refine ⟨?_, ?_, by decide, by decide⟩
  · exact List.filter_congr (fun sp _ => validate_eq_specAccepts _ _)
  · exact List.filter_sublist spans

/-- C10: digit-word matching in the validator is raw substring search with no
word boundaries — any span text whose lowercased form contains one of the
spelled-out digit words anywhere, even inside a longer word, passes the
PHONE and CREDIT_CARD checks. -/
theorem C10_substring_digit_words (t : String)
    (h : ∃ w ∈ digitWords, containsStr (strLower t) w = true) :
    validate_span t "PHONE" = true ∧ validate_span t "CREDIT_CARD" = true := by
  obtain ⟨w, hw, hc⟩ := h
  have hany : digitWords.any (fun w => containsStr (strLower t) w) = true :=
    List.any_eq_true.mpr ⟨w, hw, hc⟩
  constructor <;> simp [validate_span, hany]

/-- C10 witness: `"money"` contains no digit and no standalone digit word,
but contains `one` inside `money`, so it passes both checks. -/
theorem C10_witness :
    validate_span "money" "PHONE" = true ∧
    validate_span "money" "CREDIT_CARD" = true :=
  C10_substring_digit_words "money" ⟨"one", by decide, by decide⟩

/-- C8 counterexample: a malformed line is not skipped.  In dataset
construction (`dataset.py` line 19) `json.loads` raises on the malformed line
and construction aborts; in prediction (`predict.py` line 109) even a blank
line aborts, because there is no emptiness guard before `json.loads`. -/
theorem C8_counterexample :
    datasetRecords ([InLine.malformed] : List (InLine Nat)) = Except.error () ∧
    predictRecords ([InLine.blank] : List (InLine Nat)) = Except.error () :=
  ⟨rfl, rfl⟩

/-- C8 (amended): dataset construction skips a line that is empty after
`strip()` and continues with the remaining lines, but a malformed non-empty
line raises in `json.loads` and aborts construction; in prediction every
line goes straight to `json.loads`, so a blank or malformed line aborts the
run.  Well-formed records are processed in order in both paths. -/
theorem C8_amended {α : Type} (rest : List (InLine α)) (r : α) :
    datasetRecords (InLine.blank :: rest) = datasetRecords rest ∧
    datasetRecords (InLine.malformed :: rest) = Except.error () ∧
    datasetRecords (InLine.record r :: rest) =
      (datasetRecords rest).map (fun l => r :: l) ∧
    predictRecords (InLine.blank :: rest) = Except.error () ∧
    predictRecords (InLine.malformed :: rest) = Except.error () ∧
    predictRecords (InLine.record r :: rest) =
      (predictRecords rest).map (fun l => r :: l) :=
  ⟨rfl, rfl, rfl, rfl, rfl, rfl⟩

/-! ### CharTagger lemmas -/

lemma fillRange_length (v : String) (m : Nat) :
    ∀ (t : List String) (i : Nat), (fillRange v t i m).length = t.length := by
  induction m with
  | zero => intro t i; simp [fillRange]
  | succ m ih => intro t i; simp [fillRange, ih]

lemma fillRange_getElem? (v : String) (m : Nat) :
    ∀ (t : List String) (i j : Nat),
      (fillRange v t i m)[j]? =
        if i ≤ j ∧ j < i + m ∧ j < t.length then some v else t[j]? := by
  induction m with
  | zero =>
    intro t i j
    simp only [fillRange]
    rw [if_neg (by omega)]
  | succ m ih =>
    intro t i j
    simp only [fillRange]
    rw [ih]
    simp only [List.length_set, List.getElem?_set]
    by_cases hij : i = j
    · subst hij
      rw [if_neg (by omega), if_pos rfl]
      by_cases hlen : i < t.length
      · rw [if_pos hlen, if_pos (by omega)]
      · rw [if_neg hlen, if_neg (by omega)]
        exact (List.getElem?_eq_none (by omega)).symm
    · rw [if_neg hij]
      by_cases hc : i + 1 ≤ j ∧ j < i + 1 + m ∧ j < t.length
      · rw [if_pos hc, if_pos (by omega)]
      · rw [if_neg hc, if_neg (by omega)]

lemma applyEntity_length (tags : List String) (ent : Int × Int × String) :
    (applyEntity tags ent).length = tags.length := by
  unfold applyEntity
  split_ifs with h
  · rfl
  · simp [fillRange_length]

lemma charTags_length (n : Nat) (ents : List (Int × Int × String)) :
    (charTags n ents).length = n := by
  unfold charTags
  have key : ∀ (l : List (Int × Int × String)) (init : List String),
      (l.foldl applyEntity init).length = init.length := by
    intro l
    induction l with
    | nil => intro init; rfl
    | cons e es ih => intro init; rw [List.foldl_cons, ih, applyEntity_length]
  rw [key, List.length_replicate]

/-- C6: the CharTagger.  The tag array has length `len(text)`; with no
annotations it is all `O`; annotations are applied in list order (so a later
annotation overwrites an earlier one at conflicting positions); one
application of a valid annotation `(s, e, lab)` sets position `s` to
`B-lab` and positions strictly between `s` and `e` to `I-lab`, and an
invalid annotation (`s < 0`, `e > len(text)`, or `s ≥ e`) leaves every
position unchanged. -/
theorem C6_charTagger (n : Nat) (ents : List (Int × Int × String))
    (ent : Int × Int × String) :
    (charTags n ents).length = n ∧
    charTags n [] = List.replicate n "O" ∧
    charTags n (ents ++ [ent]) = applyEntity (charTags n ents) ent ∧
    ∀ j : Nat,
      (applyEntity (charTags n ents) ent)[j]? =
        if (0 ≤ ent.1 ∧ ent.2.1 ≤ (n : Int) ∧ ent.1 < ent.2.1) ∧ j = ent.1.toNat
          then some ("B-" ++ ent.2.2)
        else if (0 ≤ ent.1 ∧ ent.2.1 ≤ (n : Int) ∧ ent.1 < ent.2.1) ∧
            ent.1.toNat < j ∧ j < ent.2.1.toNat
          then some ("I-" ++ ent.2.2)
        else (charTags n ents)[j]? := by
  have hlen := charTags_length n ents
  refine ⟨hlen, rfl, by simp [charTags, List.foldl_append], ?_⟩
  intro j
  unfold applyEntity
  rw [hlen]
  by_cases hg : ent.1 < 0 ∨ (n : Int) < ent.2.1 ∨ ent.2.1 ≤ ent.1
  · rw [if_pos hg, if_neg (by omega), if_neg (by omega)]
  · rw [if_neg hg, fillRange_getElem?]
    simp only [List.length_set, List.getElem?_set, hlen]
    by_cases hj : j = ent.1.toNat
    · subst hj
      rw [if_neg (by omega), if_pos rfl, if_pos (by omega), if_pos (by omega)]
    · by_cases hmid : ent.1.toNat < j ∧ j < ent.2.1.toNat
      · rw [if_pos (by omega), if_neg (by omega), if_pos (by omega)]
      · rw [if_neg (by omega), if_neg (by omega), if_neg (by omega), if_neg (by omega)]

/-! ### Batch collation lemmas -/

/-- The per-batch dynamic padding length of `collate_batch`
(`dataset.py` line 93): the maximum `input_ids` length in the batch. -/
def batchMaxLen (batch : List Item) : Nat :=
  (batch.map (fun x => x.input_ids.length)).foldl Nat.max 0

lemma le_foldl_max (l : List Nat) :
    ∀ b, b ≤ l.foldl Nat.max b ∧ ∀ x ∈ l, x ≤ l.foldl Nat.max b := by
  induction l with
  | nil => intro b; exact ⟨Nat.le_refl b, by simp⟩
  | cons a t ih =>
    intro b
    simp only [List.foldl_cons]
    have h := ih (Nat.max b a)
    refine ⟨Nat.le_trans (Nat.le_max_left b a) h.1, ?_⟩
    intro x hx
    rcases List.mem_cons.mp hx with rfl | hx
    · exact Nat.le_trans (Nat.le_max_right b x) h.1
    · exact h.2 x hx

lemma foldl_max_eq_or_mem (l : List Nat) :
    ∀ b, l.foldl Nat.max b = b ∨ l.foldl Nat.max b ∈ l := by
  induction l with
  | nil => intro b; exact Or.inl rfl
  | cons a t ih =>
    intro b
    simp only [List.foldl_cons]
    rcases ih (Nat.max b a) with h | h
    · rw [h]
      rcases Nat.le_total b a with h2 | h2
      · refine Or.inr ?_
        have hm : b.max a = a := Nat.max_eq_right h2
        rw [hm]; exact List.mem_cons_self a t
      · exact Or.inl (Nat.max_eq_left h2)
    · exact Or.inr (List.mem_cons_of_mem a h)

/-- C9: batch collation.  On a non-empty batch whose per-example sequences
agree in length, `collate_batch` right-pads the three sequences to the
maximum `input_ids` length of the batch (which is attained by some example):
each output row is the original sequence unchanged followed by pad entries —
`pad_token_id` for `input_ids`, `0` for `attention_mask`, the ignore
sentinel for `labels` — and every output row has exactly the batch maximum
length, so no sequence is truncated. -/
theorem C9_collate (batch : List Item) (pad_token_id label_pad_id : Int)
    (hne : batch ≠ [])
    (hml : ∀ x ∈ batch, x.attention_mask.length = x.input_ids.length)
    (hll : ∀ x ∈ batch, x.labels.length = x.input_ids.length) :
    (∀ x ∈ batch, x.input_ids.length ≤ batchMaxLen batch) ∧
    (∃ x ∈ batch, x.input_ids.length = batchMaxLen batch) ∧
    (collate_batch batch pad_token_id label_pad_id).input_ids =
      batch.map (fun x => x.input_ids ++
        List.replicate (batchMaxLen batch - x.input_ids.length) pad_token_id) ∧
    (collate_batch batch pad_token_id label_pad_id).attention_mask =
      batch.map (fun x => x.attention_mask ++
        List.replicate (batchMaxLen batch - x.attention_mask.length) 0) ∧
    (collate_batch batch pad_token_id label_pad_id).labels =
      batch.map (fun x => x.labels ++
        List.replicate (batchMaxLen batch - x.labels.length) label_pad_id) ∧
    (∀ row ∈ (collate_batch batch pad_token_id label_pad_id).input_ids,
      row.length = batchMaxLen batch) ∧
    (∀ row ∈ (collate_batch batch pad_token_id label_pad_id).attention_mask,
      row.length = batchMaxLen batch) ∧
    (∀ row ∈ (collate_batch batch pad_token_id label_pad_id).labels,
      row.length = batchMaxLen batch) := by
  have hub : ∀ x ∈ batch, x.input_ids.length ≤ batchMaxLen batch := by
    intro x hx
    exact (le_foldl_max _ 0).2 _ (List.mem_map_of_mem _ hx)
  have hattain : ∃ x ∈ batch, x.input_ids.length = batchMaxLen batch := by
    rcases foldl_max_eq_or_mem (batch.map (fun x => x.input_ids.length)) 0 with h | h
    · obtain ⟨x, t, rfl⟩ : ∃ x t, batch = x :: t := by
        cases batch with
        | nil => exact absurd rfl hne
        | cons x t => exact ⟨x, t, rfl⟩
      refine ⟨x, List.mem_cons_self x t, ?_⟩
      have h2 := hub x (List.mem_cons_self x t)
      unfold batchMaxLen at h2 ⊢
      omega
    · obtain ⟨x, hx, hxe⟩ := List.mem_map.mp h
      exact ⟨x, hx, hxe⟩
  refine ⟨hub, hattain, rfl, rfl, rfl, ?_, ?_, ?_⟩
  · intro row hrow
    obtain ⟨x, hx, rfl⟩ := List.mem_map.mp hrow
    have h1 := hub x hx
    unfold batchMaxLen at h1 ⊢
    simp only [padSeq, List.length_append, List.length_replicate]
    omega
  · intro row hrow
    obtain ⟨x, hx, rfl⟩ := List.mem_map.mp hrow
    have h1 := hub x hx
    have h2 := hml x hx
    unfold batchMaxLen at h1 ⊢
    simp only [padSeq, List.length_append, List.length_replicate]
    omega
  · intro row hrow
    obtain ⟨x, hx, rfl⟩ := List.mem_map.mp hrow
    have h1 := hub x hx
    have h2 := hll x hx
    unfold batchMaxLen at h1 ⊢
    simp only [padSeq, List.length_append, List.length_replicate]
    omega

/-- A concrete two-element batch with unequal sequence lengths. -/
def itemA : Item := ⟨"u1", "hi", [5], [1], [7], [(0, 1)]⟩

/-- A concrete batch element of length two. -/
def itemB : Item := ⟨"u2", "ho", [5, 6], [1, 1], [7, 8], [(0, 1), (1, 2)]⟩

/-- The concrete batch used by the collation witness. -/
def batchW : List Item := [itemA, itemB]

/-- C9 witness: the collation theorem applied to the concrete batch
`[itemA, itemB]` with pad id 9 and the default ignore sentinel. -/
theorem C9_collate_witness :
    (∀ x ∈ batchW, x.input_ids.length ≤ batchMaxLen batchW) ∧
    (∃ x ∈ batchW, x.input_ids.length = batchMaxLen batchW) ∧
    (collate_batch batchW 9 (-100)).input_ids =
      batchW.map (fun x => x.input_ids ++
        List.replicate (batchMaxLen batchW - x.input_ids.length) 9) ∧
    (collate_batch batchW 9 (-100)).attention_mask =
      batchW.map (fun x => x.attention_mask ++
        List.replicate (batchMaxLen batchW - x.attention_mask.length) 0) ∧
    (collate_batch batchW 9 (-100)).labels =
      batchW.map (fun x => x.labels ++
        List.replicate (batchMaxLen batchW - x.labels.length) (-100)) ∧
    (∀ row ∈ (collate_batch batchW 9 (-100)).input_ids,
      row.length = batchMaxLen batchW) ∧
    (∀ row ∈ (collate_batch batchW 9 (-100)).attention_mask,
      row.length = batchMaxLen batchW) ∧
    (∀ row ∈ (collate_batch batchW 9 (-100)).labels,
      row.length = batchMaxLen batchW) :=
  C9_collate batchW 9 (-100) (by simp [batchW])
    (by
      intro x hx
      simp only [batchW] at hx
      rcases List.mem_cons.mp hx with rfl | hx2
      · rfl
      · rcases List.mem_cons.mp hx2 with rfl | h3
        · rfl
        · cases h3)
    (by
      intro x hx
      simp only [batchW] at hx
      rcases List.mem_cons.mp hx with rfl | hx2
      · rfl
      · rcases List.mem_cons.mp hx2 with rfl | h3
        · rfl
        · cases h3)

/-! ### Aligner lemmas -/

lemma indexOf?_eq_none_of_not_mem {a : String} {l : List String} (h : a ∉ l) :
    List.indexOf? a l = none := by
  induction l with
  | nil => rfl
  | cons x t ih =>
    have hxa : (x == a) = false :=
      beq_eq_false_iff_ne.mpr (fun hx => h (hx ▸ List.mem_cons_self x t))
    rw [List.indexOf?_cons, hxa]
    simp [ih (fun hm => h (List.mem_cons_of_mem x hm))]

/-- C3 counterexample: the aligner's ignore-sentinel branch
(`dataset.py` line 54) also fires on a token whose input id is a tokenizer
special id (cls/sep/pad), even when its offset is non-degenerate.  The token
`((0, 1), 100)` with `100` the cls id gets `-100`, not the id of
`CharTagArray[0] = B-PHONE` as the claim requires. -/
theorem C3_counterexample :
    alignLabels ["B-PHONE"] [((0, 1), 100)] [100, 101, 102] = [-100] ∧
    label2id "B-PHONE" ≠ -100 := by
  exact ⟨rfl, by decide⟩

/-- C3 (amended): token-to-label alignment, with the extra condition the code
actually tests — a token receives the ignore sentinel when `start == end` OR
its input id is one of the tokenizer's special ids; otherwise, if
`start < len(CharTagArray)` it receives the id of `CharTagArray[start]`
(first-character wins), falling back to `O`'s id when the tag string is not
in the vocabulary; and `O`'s id if `start ≥ len(CharTagArray)`. -/
theorem C3_amended (char_tags : List String) (toks : List ((Nat × Nat) × Int))
    (specials : List Int) :
    (alignLabels char_tags toks specials).length = toks.length ∧
    (∀ i : Nat,
      (alignLabels char_tags toks specials)[i]? = (toks[i]?).map (fun t =>
        if t.1.1 = t.1.2 ∨ t.2 ∈ specials then -100
        else if t.1.1 < char_tags.length then label2id (char_tags.getD t.1.1 "O")
        else label2id "O")) ∧
    (∀ l : String, l ∉ LABELS → label2id l = label2id "O") ∧
    label2id "O" = 0 := by
  refine ⟨List.length_map _ _, ?_, ?_, by decide⟩
  · intro i
    cases h : toks[i]? with
    | none => simp [alignLabels, List.getElem?_map, h]
    | some t => simp [alignLabels, List.getElem?_map, h, alignTok,
        List.getD_eq_getElem?_getD]
  · intro l hl
    simp only [label2id, indexOf?_eq_none_of_not_mem hl]
    decide

/-- C3 witness: the amended alignment theorem applied at a concrete unknown
tag string, exercising the fallback-to-`O` clause. -/
theorem C3_amended_witness : label2id "NOT_A_LABEL" = label2id "O" :=
  (C3_amended [] [] []).2.2.1 "NOT_A_LABEL" (by decide)

/-! ### Decoder order and non-overlap -/

/-- Left-to-right token order, following the decoder's own skip rule: a token
at exact offset `(0, 0)` is unconstrained (the decoder never looks at it);
every other token must start no earlier than `b` and at or before its own
end, and the bound advances to that token's end. -/
def TokChain : Nat → List ((Nat × Nat) × Int) → Prop
  | _, [] => True
  | b, t :: rest =>
    if t.1.1 = 0 ∧ t.1.2 = 0 then TokChain b rest
    else b ≤ t.1.1 ∧ t.1.1 ≤ t.1.2 ∧ TokChain t.1.2 rest

lemma bioGo_pairwise :
    ∀ (toks : List ((Nat × Nat) × Int)) (b : Nat) (cur : Option (String × Nat × Nat)),
      TokChain b toks →
      (∀ l cs ce, cur = some (l, cs, ce) → cs ≤ ce ∧ ce ≤ b) →
      List.Pairwise (fun x y => x.2.1 ≤ y.1) (bioGo toks cur) ∧
      (∀ sp ∈ bioGo toks cur, sp.1 ≤ sp.2.1) ∧
      (∀ sp ∈ bioGo toks cur,
        (match cur with
         | none => b
         | some (_, cs, _) => cs) ≤ sp.1) := by
  intro toks
  induction toks with
  | nil =>
    intro b cur hch hcur
    cases cur with
    | none => simp [bioGo]
    | some c =>
      obtain ⟨l, cs, ce⟩ := c
      obtain ⟨h1, h2⟩ := hcur l cs ce rfl
      simp [bioGo]
      exact h1
  | cons t rest ih =>
    obtain ⟨⟨st, en⟩, lid⟩ := t
    intro b cur hch hcur
    simp only [TokChain] at hch
    by_cases h00 : st = 0 ∧ en = 0
    · rw [if_pos h00] at hch
      have hgo : bioGo (((st, en), lid) :: rest) cur = bioGo rest cur := by
        simp [bioGo, h00]
      rw [hgo]
      exact ih b cur hch hcur
    · rw [if_neg h00] at hch
      obtain ⟨hb, hse, hch2⟩ := hch
      by_cases hO : ID2LABEL lid = "O"
      · cases cur with
        | none =>
          have hgo : bioGo (((st, en), lid) :: rest) none = bioGo rest none := by
            simp [bioGo, h00, hO]
          rw [hgo]
          have H := ih en none hch2 (by intro l cs ce h; cases h)
          exact ⟨H.1, H.2.1, fun sp hsp => le_trans (le_trans hb hse) (H.2.2 sp hsp)⟩
        | some c =>
          obtain ⟨l, cs, ce⟩ := c
          obtain ⟨hcs, hce⟩ := hcur l cs ce rfl
          have hgo : bioGo (((st, en), lid) :: rest) (some (l, cs, ce)) =
              (cs, ce, l) :: bioGo rest none := by
            simp [bioGo, h00, hO]
          rw [hgo]
          have H := ih en none hch2 (by intro l' cs' ce' h; cases h)
          refine ⟨List.pairwise_cons.mpr ⟨?_, H.1⟩, ?_, ?_⟩
          · intro y hy
            exact le_trans hce (le_trans hb (le_trans hse (H.2.2 y hy)))
          · intro sp hsp
            rcases List.mem_cons.mp hsp with rfl | hsp
            · exact hcs
            · exact H.2.1 sp hsp
          · intro sp hsp
            rcases List.mem_cons.mp hsp with rfl | hsp
            · exact le_refl cs
            · exact le_trans hcs (le_trans hce (le_trans hb (le_trans hse (H.2.2 sp hsp))))
      · cases hk : labelKind (ID2LABEL lid) with
        | none =>
          cases cur with
          | none =>
            have hgo : bioGo (((st, en), lid) :: rest) none = bioGo rest none := by
              simp [bioGo, h00, hO, hk]
            rw [hgo]
            have H := ih en none hch2 (by intro l cs ce h; cases h)
            exact ⟨H.1, H.2.1, fun sp hsp => le_trans (le_trans hb hse) (H.2.2 sp hsp)⟩
          | some c =>
            obtain ⟨l, cs, ce⟩ := c
            obtain ⟨hcs, hce⟩ := hcur l cs ce rfl
            have hgo : bioGo (((st, en), lid) :: rest) (some (l, cs, ce)) =
                bioGo rest (some (l, cs, ce)) := by
              simp [bioGo, h00, hO, hk]
            rw [hgo]
            have H := ih en (some (l, cs, ce)) hch2
              (by intro l' cs' ce' h
                  simp at h
                  obtain ⟨rfl, rfl, rfl⟩ := h
                  exact ⟨hcs, by omega⟩)
            exact H
        | some p =>
          obtain ⟨kind, ent⟩ := p
          cases kind with
          | true =>
            cases cur with
            | none =>
              have hgo : bioGo (((st, en), lid) :: rest) none =
                  bioGo rest (some (ent, st, en)) := by
                simp [bioGo, h00, hO, hk]
              rw [hgo]
              have H := ih en (some (ent, st, en)) hch2
                (by intro l' cs' ce' h
                    simp at h
                    obtain ⟨rfl, rfl, rfl⟩ := h
                    exact ⟨hse, le_refl en⟩)
              refine ⟨H.1, H.2.1, ?_⟩
              intro sp hsp
              exact le_trans hb (H.2.2 sp hsp)
            | some c =>
              obtain ⟨l, cs, ce⟩ := c
              obtain ⟨hcs, hce⟩ := hcur l cs ce rfl
              have hgo : bioGo (((st, en), lid) :: rest) (some (l, cs, ce)) =
                  (cs, ce, l) :: bioGo rest (some (ent, st, en)) := by
                simp [bioGo, h00, hO, hk]
              rw [hgo]
              have H := ih en (some (ent, st, en)) hch2
                (by intro l' cs' ce' h
                    simp at h
                    obtain ⟨rfl, rfl, rfl⟩ := h
                    exact ⟨hse, le_refl en⟩)
              refine ⟨List.pairwise_cons.mpr ⟨?_, H.1⟩, ?_, ?_⟩
              · intro y hy
                exact le_trans hce (le_trans hb (H.2.2 y hy))
              · intro sp hsp
                rcases List.mem_cons.mp hsp with rfl | hsp
                · exact hcs
                · exact H.2.1 sp hsp
              · intro sp hsp
                rcases List.mem_cons.mp hsp with rfl | hsp
                · exact le_refl cs
                · exact le_trans hcs (le_trans hce (le_trans hb (H.2.2 sp hsp)))
          | false =>
            cases cur with
            | none =>
              have hgo : bioGo (((st, en), lid) :: rest) none =
                  bioGo rest (some (ent, st, en)) := by
                simp [bioGo, h00, hO, hk]
              rw [hgo]
              have H := ih en (some (ent, st, en)) hch2
                (by intro l' cs' ce' h
                    simp at h
                    obtain ⟨rfl, rfl, rfl⟩ := h
                    exact ⟨hse, le_refl en⟩)
              refine ⟨H.1, H.2.1, ?_⟩
              intro sp hsp
              exact le_trans hb (H.2.2 sp hsp)
            | some c =>
              obtain ⟨l, cs, ce⟩ := c
              obtain ⟨hcs, hce⟩ := hcur l cs ce rfl
              by_cases hle : l = ent
              · have hgo : bioGo (((st, en), lid) :: rest) (some (l, cs, ce)) =
                    bioGo rest (some (l, cs, en)) := by
                  simp [bioGo, h00, hO, hk, hle]
                rw [hgo]
                have H := ih en (some (l, cs, en)) hch2
                  (by intro l' cs' ce' h
                      simp at h
                      obtain ⟨rfl, rfl, rfl⟩ := h
                      exact ⟨by omega, le_refl en⟩)
                exact H
              · have hgo : bioGo (((st, en), lid) :: rest) (some (l, cs, ce)) =
                    (cs, ce, l) :: bioGo rest (some (ent, st, en)) := by
                  simp [bioGo, h00, hO, hk, hle]
                rw [hgo]
                have H := ih en (some (ent, st, en)) hch2
                  (by intro l' cs' ce' h
                      simp at h
                      obtain ⟨rfl, rfl, rfl⟩ := h
                      exact ⟨hse, le_refl en⟩)
                refine ⟨List.pairwise_cons.mpr ⟨?_, H.1⟩, ?_, ?_⟩
                · intro y hy
                  exact le_trans hce (le_trans hb (H.2.2 y hy))
                · intro sp hsp
                  rcases List.mem_cons.mp hsp with rfl | hsp
                  · exact hcs
                  · exact H.2.1 sp hsp
                · intro sp hsp
                  rcases List.mem_cons.mp hsp with rfl | hsp
                  · exact le_refl cs
                  · exact le_trans hcs (le_trans hce (le_trans hb (H.2.2 sp hsp)))

/-- C2 counterexample: the guarantee fails when only the non-structural
tokens (structural meaning any zero-width offset `(k, k)`, per the spec's
definition) are constrained to be in order.  The non-structural tokens
`(0, 3)` and `(4, 6)` here are ordered and non-overlapping, but the
structural token `(9, 9)` — not `(0, 0)`, hence not skipped by the decoder —
carries `I-PHONE` and extends the open span's end to 9, so the decoded spans
`(0, 9, PHONE)` and `(4, 6, EMAIL)` overlap on `[4, 6)`. -/
theorem C2_counterexample :
    bio_to_spans "0123456789" [(0, 3), (9, 9), (4, 6)]
      [label2id "B-PHONE", label2id "I-PHONE", label2id "B-EMAIL"]
      = [(0, 9, "PHONE"), (4, 6, "EMAIL")] ∧
    ¬ List.Pairwise (fun x y => x.2.1 ≤ y.1)
      (bio_to_spans "0123456789" [(0, 3), (9, 9), (4, 6)]
        [label2id "B-PHONE", label2id "I-PHONE", label2id "B-EMAIL"]) := by
  exact ⟨rfl, by decide⟩

/-- C2 (amended): the ordering hypothesis must constrain every token the
decoder actually processes — every token whose offset is not exactly
`(0, 0)`, including zero-width `(k, k)` with `k ≠ 0` — each starting at or
after the previous such token's end and at or before its own end.  Then the
decoded span list is pairwise non-overlapping (each span ends at or before
the next begins) and sorted ascending by start, and every span is
well-formed. -/
theorem C2_nonoverlap_sorted (text : String) (offsets : List (Nat × Nat))
    (label_ids : List Int) (h : TokChain 0 (offsets.zip label_ids)) :
    List.Pairwise (fun x y => x.2.1 ≤ y.1) (bio_to_spans text offsets label_ids) ∧
    List.Pairwise (fun x y => x.1 ≤ y.1) (bio_to_spans text offsets label_ids) ∧
    ∀ sp ∈ bio_to_spans text offsets label_ids, sp.1 ≤ sp.2.1 := by
  have H := bioGo_pairwise (offsets.zip label_ids) 0 none h
    (by intro l cs ce hh; cases hh)
  have hbs : bio_to_spans text offsets label_ids = bioGo (offsets.zip label_ids) none :=
    rfl
  rw [hbs]
  refine ⟨H.1, ?_, H.2.1⟩
  refine List.Pairwise.imp_of_mem ?_ H.1
  intro a c ha hc r
  exact le_trans (H.2.1 a ha) r

/-- C2 witness: the order/non-overlap theorem at a concrete ordered stream. -/
theorem C2_witness :
    TokChain 0 ([(1, 2), (2, 4)].zip [(1 : Int), 2]) ∧
    (List.Pairwise (fun x y => x.2.1 ≤ y.1) (bio_to_spans "abcd" [(1, 2), (2, 4)] [1, 2]) ∧
     List.Pairwise (fun x y => x.1 ≤ y.1) (bio_to_spans "abcd" [(1, 2), (2, 4)] [1, 2]) ∧
     ∀ sp ∈ bio_to_spans "abcd" [(1, 2), (2, 4)] [1, 2], sp.1 ≤ sp.2.1) :=
  have hch : TokChain 0 ([(1, 2), (2, 4)].zip [(1 : Int), 2]) := by
    simp [TokChain]
  ⟨hch, C2_nonoverlap_sorted "abcd" [(1, 2), (2, 4)] [1, 2] hch⟩

/-! ### Round-trip infrastructure -/

/-- The inverse pair: for every label string of the vocabulary, decoding its
id recovers the string. -/
lemma id2label_label2id : ∀ l ∈ LABELS, ID2LABEL (label2id l) = l := by decide

/-- ID2LABEL of the ignore sentinel and of `O`'s id are both `"O"`. -/
lemma id2label_ignore : ID2LABEL (-100) = "O" ∧ ID2LABEL (label2id "O") = "O" := by
  decide

/-- The character tags produced by a single valid annotation `(s, e, lab)`:
`B-lab` at `s`, `I-lab` strictly inside, `O` elsewhere in range. -/
lemma singleTags_getD (n s e : Nat) (lab : String) (hse : s < e) (hen : e ≤ n)
    (j : Nat) :
    (charTags n [((s : Int), (e : Int), lab)]).getD j "O" =
      if j = s then "B-" ++ lab
      else if s < j ∧ j < e then "I-" ++ lab
      else "O" := by
  have h1 : charTags n [((s : Int), (e : Int), lab)] =
      applyEntity (List.replicate n "O") ((s : Int), (e : Int), lab) := rfl
  rw [List.getD_eq_getElem?_getD, h1]
  unfold applyEntity
  simp only [List.length_replicate]
  rw [if_neg (by omega)]
  simp only [Int.toNat_natCast]
  rw [fillRange_getElem?]
  simp only [List.length_set, List.length_replicate, List.getElem?_set,
    List.getElem?_replicate]
  split_ifs <;> first | rfl | omega

/-- Tokens that the decoder ignores from the idle state: each is either
skipped outright (offset exactly `(0, 0)`) or carries a label decoding to
`"O"`, which keeps the state idle. -/
lemma bioGo_skipO_pass :
    ∀ (A rest : List ((Nat × Nat) × Int)),
      (∀ t ∈ A, (t.1.1 = 0 ∧ t.1.2 = 0) ∨ ID2LABEL t.2 = "O") →
      bioGo (A ++ rest) none = bioGo rest none := by
  intro A
  induction A with
  | nil => intro rest _; rfl
  | cons t ts ih =>
    obtain ⟨⟨st, en⟩, lid⟩ := t
    intro rest h
    have ht := h _ (List.mem_cons_self _ _)
    have hstep : bioGo (((st, en), lid) :: (ts ++ rest)) none =
        bioGo (ts ++ rest) none := by
      by_cases h00 : st = 0 ∧ en = 0
      · simp [bioGo, h00]
      · have hO : ID2LABEL lid = "O" := by
          rcases ht with h' | h'
          · exact absurd h' h00
          · exact h'
        simp [bioGo, h00, hO]
    rw [List.cons_append, hstep,
      ih rest (fun t' ht' => h t' (List.mem_cons_of_mem _ ht'))]

/-- A stream of skipped-or-`O` tokens flushes an open span exactly once and
produces nothing from the idle state. -/
lemma bioGo_flush :
    ∀ (B : List ((Nat × Nat) × Int)),
      (∀ t ∈ B, (t.1.1 = 0 ∧ t.1.2 = 0) ∨ ID2LABEL t.2 = "O") →
      bioGo B none = [] ∧
      ∀ l cs ce, bioGo B (some (l, cs, ce)) = [(cs, ce, l)] := by
  intro B
  induction B with
  | nil => intro _; exact ⟨rfl, fun l cs ce => rfl⟩
  | cons t ts ih =>
    obtain ⟨⟨st, en⟩, lid⟩ := t
    intro h
    have ht := h _ (List.mem_cons_self _ _)
    have IH := ih (fun t' ht' => h t' (List.mem_cons_of_mem _ ht'))
    by_cases h00 : st = 0 ∧ en = 0
    · refine ⟨?_, ?_⟩
      · rw [show bioGo (((st, en), lid) :: ts) none = bioGo ts none from by
          simp [bioGo, h00]]
        exact IH.1
      · intro l cs ce
        rw [show bioGo (((st, en), lid) :: ts) (some (l, cs, ce)) =
            bioGo ts (some (l, cs, ce)) from by simp [bioGo, h00]]
        exact IH.2 l cs ce
    · have hO : ID2LABEL lid = "O" := by
        rcases ht with h' | h'
        · exact absurd h' h00
        · exact h'
      refine ⟨?_, ?_⟩
      · rw [show bioGo (((st, en), lid) :: ts) none = bioGo ts none from by
          simp [bioGo, h00, hO]]
        exact IH.1
      · intro l cs ce
        rw [show bioGo (((st, en), lid) :: ts) (some (l, cs, ce)) =
            (cs, ce, l) :: bioGo ts none from by simp [bioGo, h00, hO]]
        rw [IH.1]

/-- One decoder step on a `B-lab` label from the idle state: open `(lab, st, en)`. -/
lemma bioGo_step_B (st en : Nat) (lv : Int) (lab : String)
    (rest : List ((Nat × Nat) × Int))
    (h00 : ¬(st = 0 ∧ en = 0)) (hid : ID2LABEL lv = "B-" ++ lab) :
    bioGo (((st, en), lv) :: rest) none = bioGo rest (some (lab, st, en)) := by
  simp [bioGo, h00, hid, B_append_ne_O, labelKind_B]

/-- One decoder step on an `I-lab` label while a `lab` span is open: extend
its end to `en`. -/
lemma bioGo_step_I (st en : Nat) (lv : Int) (lab : String) (cs ce : Nat)
    (rest : List ((Nat × Nat) × Int))
    (h00 : ¬(st = 0 ∧ en = 0)) (hid : ID2LABEL lv = "I-" ++ lab) :
    bioGo (((st, en), lv) :: rest) (some (lab, cs, ce)) =
      bioGo rest (some (lab, cs, en)) := by
  simp [bioGo, h00, hid, I_append_ne_O, labelKind_I]

/-- The part of an entity's token tiling after its first token: starting from
character position `pos`, each token either is a skipped `(0, 0)` marker or
begins exactly at the current position and advances it to its own end; the
last position reached is `epos`. -/
def MidTile (epos : Nat) : Nat → List ((Nat × Nat) × Int) → Prop
  | pos, [] => pos = epos
  | pos, t :: rest =>
    (t.1 = (0, 0) ∧ MidTile epos pos rest) ∨
    (t.1.1 = pos ∧ pos < t.1.2 ∧ MidTile epos t.1.2 rest)

lemma MidTile_le (epos : Nat) :
    ∀ (Tm : List ((Nat × Nat) × Int)) (pos : Nat), MidTile epos pos Tm → pos ≤ epos := by
  intro Tm
  induction Tm with
  | nil => intro pos h; exact le_of_eq h
  | cons t ts ih =>
    intro pos h
    rcases h with ⟨_, h2⟩ | ⟨_, hlt, h3⟩
    · exact ih pos h2
    · exact le_trans (le_of_lt hlt) (ih _ h3)

/-- A token lying outside a single annotation's `[s, e)` zone — or degenerate,
or special — is aligned to a label the decoder treats as skip-or-`O`. -/
lemma aligned_skipO (n s e : Nat) (lab : String) (specials : List Int)
    (hse : s < e) (hen : e ≤ n) (t : (Nat × Nat) × Int)
    (ht : t.1.1 = t.1.2 ∨ t.2 ∈ specials ∨ t.1.1 < s ∨ e ≤ t.1.1) :
    (t.1.1 = 0 ∧ t.1.2 = 0) ∨
      ID2LABEL (alignTok (charTags n [((s : Int), (e : Int), lab)]) specials t)
        = "O" := by
  by_cases h00 : t.1.1 = 0 ∧ t.1.2 = 0
  · exact Or.inl h00
  · right
    unfold alignTok
    by_cases hsent : t.1.1 = t.1.2 ∨ t.2 ∈ specials
    · rw [if_pos hsent]; decide
    · rw [if_neg hsent, charTags_length]
      have hout : t.1.1 < s ∨ e ≤ t.1.1 := by
        rcases ht with h' | h' | h' | h'
        · exact absurd (Or.inl h') hsent
        · exact absurd (Or.inr h') hsent
        · exact Or.inl h'
        · exact Or.inr h'
      by_cases hlt : t.1.1 < n
      · rw [if_pos hlt, singleTags_getD n s e lab hse hen,
          if_neg (by omega), if_neg (by omega)]
        decide
      · rw [if_neg hlt]
        decide

/-- Decoding the post-first-token part of an entity tiling: each tile token
extends the open span's end; interleaved `(0, 0)` markers are skipped; at
the end the open span reaches `e`. -/
lemma bioGo_tile (n s e : Nat) (lab : String) (specials : List Int)
    (hse : s < e) (hen : e ≤ n) (hIL : ("I-" ++ lab) ∈ LABELS) :
    ∀ (Tm : List ((Nat × Nat) × Int)) (pos : Nat)
      (rest : List ((Nat × Nat) × Int)) (cs : Nat),
      MidTile e pos Tm → s < pos →
      (∀ t ∈ Tm, t.1 = (0, 0) ∨ t.2 ∉ specials) →
      bioGo (Tm.map (fun t =>
          (t.1, alignTok (charTags n [((s : Int), (e : Int), lab)]) specials t))
          ++ rest) (some (lab, cs, pos)) =
        bioGo rest (some (lab, cs, e)) := by
  intro Tm
  induction Tm with
  | nil =>
    intro pos rest cs hmt hs hsp
    simp only [MidTile] at hmt
    subst hmt
    rfl
  | cons t ts ih =>
    obtain ⟨⟨st, en⟩, lid⟩ := t
    intro pos rest cs hmt hs hsp
    simp only [MidTile] at hmt
    rcases hmt with ⟨h0, hmt2⟩ | ⟨h1, h2, hmt2⟩
    · have h00 : st = 0 ∧ en = 0 := by
        simpa [Prod.ext_iff] using h0
      rw [List.map_cons, List.cons_append,
        show bioGo _ (some (lab, cs, pos)) =
          bioGo (ts.map (fun t =>
            (t.1, alignTok (charTags n [((s : Int), (e : Int), lab)]) specials t))
            ++ rest) (some (lab, cs, pos)) from by simp [bioGo, h00]]
      exact ih pos rest cs hmt2 hs
        (fun t' ht' => hsp t' (List.mem_cons_of_mem _ ht'))
    · have hene : en ≤ e := MidTile_le e ts en hmt2
      have hnsp : lid ∉ specials := by
        rcases hsp _ (List.mem_cons_self _ _) with h' | h'
        · exfalso
          have : en = 0 := by
            have := congrArg Prod.snd h'
            simpa using this
          omega
        · exact h'
      have h1' : st = pos := h1
      have halign :
          alignTok (charTags n [((s : Int), (e : Int), lab)]) specials
            ((st, en), lid) = label2id ("I-" ++ lab) := by
        unfold alignTok
        dsimp only
        rw [if_neg (by
          simp only [not_or]
          exact ⟨by omega, hnsp⟩), charTags_length]
        rw [if_pos (by omega), singleTags_getD n s e lab hse hen]
        rw [if_neg (by omega), if_pos (by omega)]
      have hid : ID2LABEL (label2id ("I-" ++ lab)) = "I-" ++ lab :=
        id2label_label2id _ hIL
      rw [List.map_cons, List.cons_append]
      rw [show ((((st, en), lid) : (Nat × Nat) × Int).1,
          alignTok (charTags n [((s : Int), (e : Int), lab)]) specials
            ((st, en), lid)) = ((st, en), label2id ("I-" ++ lab)) from by
        rw [halign]]
      rw [bioGo_step_I st en (label2id ("I-" ++ lab)) lab cs pos _
        (by omega) hid]
      subst h1'
      exact ih en rest cs hmt2 (by omega)
        (fun t' ht' => hsp t' (List.mem_cons_of_mem _ ht'))

/-- C1 (amended): round-trip through CharTagger, TokenLabelAligner and
SpanDecoder.  For a valid annotation `(s, e, lab)` whose `B-`/`I-` labels are
in the vocabulary, and a token stream `A ++ ((s, en0), lid0) :: Tm ++ Bz`
whose non-skipped tokens tile `[s, e)` exactly — first token starts at `s`,
the following tile tokens abut and the last ends at `e` — the gold labels
decode back to exactly `[(s, e, lab)]`, PROVIDED (the amendment, forced by
the counterexample) that every zero-width or special-id token lying between
the tile tokens has offset exactly `(0, 0)`, and that no tile token carries
a tokenizer special input id; tokens before and after the tile may be
arbitrary degenerate, special, or out-of-zone tokens. -/
theorem C1_amended (text : String) (n s e : Nat) (lab : String)
    (specials : List Int)
    (A Tm Bz : List ((Nat × Nat) × Int)) (en0 : Nat) (lid0 : Int)
    (hse : s < e) (hen : e ≤ n)
    (hBL : ("B-" ++ lab) ∈ LABELS) (hIL : ("I-" ++ lab) ∈ LABELS)
    (hA : ∀ t ∈ A, t.1.1 = t.1.2 ∨ t.2 ∈ specials ∨ t.1.1 < s ∨ e ≤ t.1.1)
    (hBz : ∀ t ∈ Bz, t.1.1 = t.1.2 ∨ t.2 ∈ specials ∨ t.1.1 < s ∨ e ≤ t.1.1)
    (ht0 : s < en0) (ht0sp : lid0 ∉ specials)
    (hTm : MidTile e en0 Tm)
    (hTmsp : ∀ t ∈ Tm, t.1 = (0, 0) ∨ t.2 ∉ specials) :
    bio_to_spans text
      ((A ++ ((s, en0), lid0) :: Tm ++ Bz).map (fun t => t.1))
      (alignLabels (charTags n [((s : Int), (e : Int), lab)])
        (A ++ ((s, en0), lid0) :: Tm ++ Bz) specials)
      = [(s, e, lab)] := by
  simp only [bio_to_spans, alignLabels]
  rw [List.zip_map']
  simp only [List.map_append, List.map_cons, List.append_assoc, List.cons_append]
  have hApre : ∀ t' ∈ A.map (fun t =>
      (t.1, alignTok (charTags n [((s : Int), (e : Int), lab)]) specials t)),
      (t'.1.1 = 0 ∧ t'.1.2 = 0) ∨ ID2LABEL t'.2 = "O" := by
    intro t' ht'
    obtain ⟨t, ht, rfl⟩ := List.mem_map.mp ht'
    exact aligned_skipO n s e lab specials hse hen t (hA t ht)
  have hBpre : ∀ t' ∈ Bz.map (fun t =>
      (t.1, alignTok (charTags n [((s : Int), (e : Int), lab)]) specials t)),
      (t'.1.1 = 0 ∧ t'.1.2 = 0) ∨ ID2LABEL t'.2 = "O" := by
    intro t' ht'
    obtain ⟨t, ht, rfl⟩ := List.mem_map.mp ht'
    exact aligned_skipO n s e lab specials hse hen t (hBz t ht)
  have halign0 : alignTok (charTags n [((s : Int), (e : Int), lab)]) specials
      ((s, en0), lid0) = label2id ("B-" ++ lab) := by
    unfold alignTok
    dsimp only
    rw [if_neg (by simp only [not_or]; exact ⟨by omega, ht0sp⟩), charTags_length]
    rw [if_pos (by omega), singleTags_getD n s e lab hse hen, if_pos rfl]
  refine (bioGo_skipO_pass _ _ hApre).trans ?_
  refine (bioGo_step_B s en0 _ lab _ (by omega)
    (by rw [halign0]; exact id2label_label2id _ hBL)).trans ?_
  refine (bioGo_tile n s e lab specials hse hen hIL Tm en0 _ s hTm ht0 hTmsp).trans ?_
  exact (bioGo_flush _ hBpre).2 lab s e

/-- C1 counterexample: the claim as stated fails.  Text of length 6,
annotation `(0, 6, PHONE)`; the non-structural tokens `(0, 3)` and `(3, 6)`
tile `[0, 6)` exactly (the first starts at 0, they abut, the last ends at 6,
none straddles a boundary); no input id is special.  But the zero-width
structural token `(5, 5)` between them is aligned to the ignore sentinel,
which the decoder — skipping only `(0, 0)` — reads back as `O`, closing the
span early: the decode yields two spans, not `[(0, 6, PHONE)]`. -/
theorem C1_counterexample :
    bio_to_spans "abcdef" [(0, 3), (5, 5), (3, 6)]
      (alignLabels (charTags 6 [((0 : Int), 6, "PHONE")])
        [((0, 3), 900), ((5, 5), 901), ((3, 6), 902)] [100, 101, 102])
      = [(0, 3, "PHONE"), (3, 6, "PHONE")] ∧
    bio_to_spans "abcdef" [(0, 3), (5, 5), (3, 6)]
      (alignLabels (charTags 6 [((0 : Int), 6, "PHONE")])
        [((0, 3), 900), ((5, 5), 901), ((3, 6), 902)] [100, 101, 102])
      ≠ [(0, 6, "PHONE")] := by
  exact ⟨rfl, by decide⟩

/-- The concrete token stream of the round-trip witness: two leading
out-of-zone/structural tokens, the tile `(1,3) (3,5)` for annotation
`(1, 5)` with an interleaved `(0, 0)` marker, and a trailing zone. -/
def streamW : List ((Nat × Nat) × Int) :=
  [((0, 0), 100), ((0, 1), 900)] ++ ((1, 3), 901) ::
    [((0, 0), 102), ((3, 5), 903)] ++ [((5, 6), 904), ((0, 0), 101)]

/-- C1 witness: the amended round-trip theorem applied to `streamW` with
annotation `(1, 5, PHONE)` on a text of length 6. -/
theorem C1_amended_witness :
    bio_to_spans "abcdef" (streamW.map (fun t => t.1))
      (alignLabels (charTags 6 [((1 : Int), 5, "PHONE")]) streamW [100, 101, 102])
      = [(1, 5, "PHONE")] :=
  C1_amended "abcdef" 6 1 5 "PHONE" [100, 101, 102]
    [((0, 0), 100), ((0, 1), 900)] [((0, 0), 102), ((3, 5), 903)]
    [((5, 6), 904), ((0, 0), 101)] 3 901
    (by omega) (by omega) (by decide) (by decide) (by decide) (by decide)
    (by omega) (by decide) (by simp [MidTile]) (by decide)
